import Mathlib

set_option autoImplicit false

/-!
Shallow embedding of the claim-eligibility core of `src/bot.py` (a
webhook-driven faucet chat bot): the email validator, the in-memory
`user_claims` cooldown map, the payout-outcome classification inside
`handle_email`, and the file-backed `EmailStorage` history.

Modelling conventions:
* Times (`time.time()`, stored `last_claim` values) are epoch seconds,
  modelled as `Int`.
* The `user_claims` dict is an association list from the stringified user id
  to a `ClaimRecord`.
* The persisted history file `/tmp/user_emails.txt` is `Option (List Line)`:
  `none` when the file does not exist, otherwise its list of lines.  A line
  is `blank` (only whitespace), a JSON record (`entry`), or text that
  `json.loads` rejects (`garbage`).
* The outbound FaucetPay call is an oracle input `ApiResult`: either a parsed
  JSON response (with its optional `status`, `message` and
  `payout_user_hash` fields), a timeout, or any other network/parse error.
* Whether the single history-file write succeeds is an oracle input
  `saveOk : Bool` to `handle_email`.
-/

namespace FaucetBot

/-- The fixed payout amount constant `AMOUNT` (line 34). -/
def AMOUNT : String := "0.00000001"

/-- Local-part character class `[a-zA-Z0-9._%+-]` of the email regex. -/
def localChar (c : Char) : Bool :=
  c.isAlpha || c.isDigit || c == '.' || c == '_' || c == '%' || c == '+' || c == '-'

/-- Domain character class `[a-zA-Z0-9.-]` of the email regex. -/
def domainChar (c : Char) : Bool :=
  c.isAlpha || c.isDigit || c == '.' || c == '-'

/-- Python's `$` (without `re.MULTILINE`) matches at the end of the string or
just before a single newline at the very end; stripping that newline reduces
the `$`-anchored match to an end-anchored match. -/
def stripFinalNewline (cs : List Char) : List Char :=
  if cs.getLast? = some '\n' then cs.dropLast else cs

/-- Split a character list at its last dot: `splitLastDot cs = some (d, t)`
iff `cs = d ++ '.' :: t` with no dot in `t`. -/
def splitLastDot : List Char → Option (List Char × List Char)
  | [] => none
  | c :: cs =>
    match splitLastDot cs with
    | some (d, t) => some (c :: d, t)
    | none => if c = '.' then some ([], cs) else none

/-- Embeds `is_valid_email` (lines 117-120):
`bool(re.match(r'^[a-zA-Z0-9._%+-]+@[a-zA-Z0-9.-]+\.[a-zA-Z]{2,}$', email))`.
Because `@` is not a local-part character, the regex can only match with the
local part equal to the maximal leading run of local-part characters; because
the final label is all-alphabetic it contains no dot, so the `\.` of the
pattern is the last dot after the `@`.  Python's `$` also matches just before
a single trailing newline, handled by `stripFinalNewline`. -/
def is_valid_email (s : String) : Bool :=
  match s.toList.dropWhile localChar with
  | c :: r0 =>
    c == '@' && !(s.toList.takeWhile localChar).isEmpty &&
    (match splitLastDot (stripFinalNewline r0) with
     | some (d, t) =>
       !d.isEmpty && d.all domainChar && t.all Char.isAlpha && decide (2 ≤ t.length)
     | none => false)
  | [] => false

/-- Modelled from the spec: the shape `local-part@domain.tld` where the local
part is one or more characters of `[A-Za-z0-9._%+-]`, the domain is one or
more characters of `[A-Za-z0-9.-]`, and the final label after the last dot is
two or more alphabetic characters (stated for comparison with
`is_valid_email`; the all-alphabetic label contains no dot, so the displayed
dot is automatically the last one). -/
def emailShape (s : String) : Prop :=
  ∃ L D T : List Char,
    s.toList = L ++ '@' :: (D ++ '.' :: T) ∧
    L ≠ [] ∧ L.all localChar = true ∧
    D ≠ [] ∧ D.all domainChar = true ∧
    T.all Char.isAlpha = true ∧ 2 ≤ T.length

/-- The per-message user identity fields read from `update.effective_user`. -/
structure UserData where
  id : Int
  username : Option String
  first_name : Option String
  last_name : Option String
deriving DecidableEq

/-- One persisted claim-history record (the JSON object written by
`EmailStorage.save_email`, lines 55-62); the formatted timestamp string is
modelled by the epoch seconds it renders. -/
structure Entry where
  timestamp : Int
  email : String
  user_id : Int
  username : Option String
  first_name : Option String
  last_name : Option String
deriving DecidableEq

/-- One line of `/tmp/user_emails.txt` as `get_all_emails` sees it: blank
(skipped by the `if line.strip()` guard), a JSON record, or a line on which
`json.loads` raises. -/
inductive Line where
  | blank : Line
  | entry : Entry → Line
  | garbage : Line
deriving DecidableEq

/-- The per-user value stored in the `user_claims` dict (lines 222-225). -/
structure ClaimRecord where
  last_claim : Int
  email : String
deriving DecidableEq

/-- Dict lookup `claims[user_id]` on the association-list model. -/
def getClaim : List (String × ClaimRecord) → String → Option ClaimRecord
  | [], _ => none
  | (k, v) :: rest, user_id => if k = user_id then some v else getClaim rest user_id

/-- Dict assignment `claims[user_id] = r` on the association-list model. -/
def setClaim : List (String × ClaimRecord) → String → ClaimRecord → List (String × ClaimRecord)
  | [], user_id, r => [(user_id, r)]
  | (k, v) :: rest, user_id, r =>
    if k = user_id then (k, r) :: rest else (k, v) :: setClaim rest user_id r

/-- The mutable state of the bot process: the in-memory `user_claims` dict
and the history file. -/
structure BotState where
  user_claims : List (String × ClaimRecord)
  file : Option (List Line)
deriving DecidableEq

namespace EmailStorage

/-- The JSON object built in `save_email` (lines 55-62). -/
def mkEntry (email : String) (user : UserData) (now : Int) : Entry :=
  ⟨now, email, user.id, user.username, user.first_name, user.last_name⟩

/-- Embeds `EmailStorage.save_email` (lines 46-74): append one JSON line to
the file; on a write failure (`saveOk = false`) the exception is caught,
logged, and `save_to_alternative` (lines 76-84) logs a backup line and
returns `True` — the caller never sees an exception either way, and the
already-written lines are untouched. -/
def save_email (saveOk : Bool) (file : Option (List Line)) (email : String)
    (user : UserData) (now : Int) : Option (List Line) × Bool :=
  if saveOk then
    (some (file.getD [] ++ [Line.entry (mkEntry email user now)]), true)
  else
    (file, true)

/-- The parse loop of `get_all_emails` (lines 94-97): blank lines are
skipped, JSON lines accumulate in file order, and a line that `json.loads`
rejects raises — modelled as `Except.error`. -/
def parseLines : List Line → Except Unit (List Entry)
  | [] => Except.ok []
  | Line.blank :: rest => parseLines rest
  | Line.entry e :: rest => (parseLines rest).map (fun es => e :: es)
  | Line.garbage :: _ => Except.error ()

/-- Embeds `EmailStorage.get_all_emails` (lines 86-102): `[]` when the file
does not exist, the parsed entries otherwise; any exception during the read
loop is caught and `[]` is returned. -/
def get_all_emails (file : Option (List Line)) : List Entry :=
  match file with
  | none => []
  | some lines =>
    match parseLines lines with
    | Except.ok es => es
    | Except.error _ => []

/-- Embeds `EmailStorage.clear_emails` (lines 104-112): remove the file. -/
def clear_emails (_file : Option (List Line)) : Option (List Line) × Bool :=
  (none, true)

end EmailStorage

/-- Iterated successful appends: run `save_email` (with the write
succeeding) once per `(email, user, now)` triple, in order. -/
def saveMany (file : Option (List Line)) :
    List (String × UserData × Int) → Option (List Line)
  | [] => file
  | (email, user, now) :: rest =>
    saveMany (EmailStorage.save_email true file email user now).1 rest

/-- The reply of `/start` (lines 122-157): either the cooldown-active message
with the remaining hours and minutes (and the conversation ends), or the
welcome message prompting for an email (entering `WAITING_FOR_EMAIL`). -/
inductive StartReply where
  | cooldownActive : Int → Int → StartReply
  | promptEmail : StartReply
deriving DecidableEq

/-- Embeds `start_command` (lines 122-157): with a record in `user_claims`,
`time_left = 86400 - (now - last_claim)`; if positive, reply with
`int(time_left // 3600)` hours and `int((time_left % 3600) // 60)` minutes
and end; otherwise (or with no record) prompt for the email. -/
def start_command (st : BotState) (user_id : String) (now : Int) : StartReply :=
  match getClaim st.user_claims user_id with
  | some r =>
    if 0 < 86400 - (now - r.last_claim) then
      StartReply.cooldownActive ((86400 - (now - r.last_claim)) / 3600)
        ((86400 - (now - r.last_claim)) % 3600 / 60)
    else
      StartReply.promptEmail
  | none => StartReply.promptEmail

/-- The reply of `/status` (lines 297-332). -/
inductive StatusReply where
  | waitingCooldown : String → Int → Int → StatusReply
  | readyToClaim : StatusReply
  | noClaims : StatusReply
deriving DecidableEq

/-- Embeds `status_command` (lines 297-332); it performs no writes, so it
returns the state it was given alongside the reply. -/
def status_command (st : BotState) (user_id : String) (now : Int) :
    BotState × StatusReply :=
  match getClaim st.user_claims user_id with
  | some r =>
    if now - r.last_claim < 86400 then
      (st, StatusReply.waitingCooldown r.email ((86400 - (now - r.last_claim)) / 3600)
        ((86400 - (now - r.last_claim)) % 3600 / 60))
    else
      (st, StatusReply.readyToClaim)
  | none => (st, StatusReply.noClaims)

/-- The outcome of the outbound FaucetPay call as `handle_email` observes
it: a parsed JSON response with its optional fields, an
`asyncio.TimeoutError`, or any other network/parse exception. -/
inductive ApiResult where
  | response : Option Int → Option String → Option String → ApiResult
  | timeout : ApiResult
  | networkError : ApiResult
deriving DecidableEq

/-- The user-facing replies of `handle_email`. -/
inductive EmailReply where
  | invalidFormat : EmailReply
  | throttleWait : EmailReply
  | success : String → String → String → EmailReply
  | txFailed : String → EmailReply
  | timeoutMsg : EmailReply
  | serviceUnavailable : EmailReply
deriving DecidableEq

/-- The conversation-handler value returned by `handle_email`:
`WAITING_FOR_EMAIL` (re-prompt) or `ConversationHandler.END`. -/
inductive ConvState where
  | waitingForEmail : ConvState
  | ended : ConvState
deriving DecidableEq

/-- The observable effect of one `handle_email` invocation: the new process
state, the reply, the conversation-handler result, and how many times
`EmailStorage.save_email` and the `user_claims` assignment ran. -/
structure StepResult where
  state : BotState
  reply : EmailReply
  conv : ConvState
  save_calls : Nat
  record_calls : Nat
deriving DecidableEq

/-- The second cooldown check of `handle_email` (lines 175-182): the attempt
may proceed unless a stored record's `last_claim` is less than 60 seconds
old.  Only successful claims write to `user_claims`, so only they are
visible here. -/
def checkRetryThrottle (claims : List (String × ClaimRecord)) (user_id : String)
    (now : Int) : Bool :=
  match getClaim claims user_id with
  | some r => if now - r.last_claim < 60 then false else true
  | none => true

/-- Modelled from the spec: `checkRetryThrottle(user_id)` "returns true (may
proceed) only if no attempt from this user has been recorded within the last
60 seconds, independent of the 24h cooldown", independent of whether prior
attempts succeeded; `attempts` lists the epoch times of the user's prior
submission attempts. -/
def spec_checkRetryThrottle (attempts : List Int) (now : Int) : Bool :=
  attempts.all (fun t => decide (60 ≤ now - t))

/-- The truncated transaction id shown in the success message (lines
227-229): `tx_id = result.get('payout_user_hash', 'N/A')`, shortened to its
first 12 characters plus `"..."` when longer than 12. -/
def short_tx_of (payout_user_hash : Option String) : String :=
  let tx_id := payout_user_hash.getD "N/A"
  if 12 < tx_id.length then tx_id.take 12 ++ "..." else tx_id

/-- The input normalisation `update.message.text.strip().lower()` (line
161): strip surrounding whitespace, then lowercase.  (Stated with structural
list recursion so that concrete inputs evaluate inside proofs.) -/
def strip_lower (s : String) : String :=
  String.mk ((((s.toList.dropWhile Char.isWhitespace).reverse.dropWhile
    Char.isWhitespace).reverse).map Char.toLower)

/-- The payout attempt and outcome reconciliation of `handle_email` (lines
190-273): a response with `status == 200` saves one history entry, overwrites
the user's `user_claims` record with the current time, and replies with the
success message; any other response replies with the transaction-failed
message (reason from the response's `message` field, defaulting to
`"Unknown error"`); a timeout and any other error reply with their dedicated
messages; every branch ends the conversation and all failure branches leave
the state untouched. -/
def attemptPayout (st : BotState) (user : UserData) (email user_id : String)
    (now : Int) (api : ApiResult) (saveOk : Bool) : StepResult :=
  match api with
  | ApiResult.response status msg hash =>
    if status = some 200 then
      ⟨⟨setClaim st.user_claims user_id ⟨now, email⟩,
        (EmailStorage.save_email saveOk st.file email user now).1⟩,
       EmailReply.success AMOUNT email (short_tx_of hash), ConvState.ended, 1, 1⟩
    else
      ⟨st, EmailReply.txFailed (msg.getD "Unknown error"), ConvState.ended, 0, 0⟩
  | ApiResult.timeout => ⟨st, EmailReply.timeoutMsg, ConvState.ended, 0, 0⟩
  | ApiResult.networkError => ⟨st, EmailReply.serviceUnavailable, ConvState.ended, 0, 0⟩

/-- Embeds `handle_email` (lines 159-273): strip and lowercase the input,
re-prompt on an invalid email, end with the wait message when the 60-second
throttle rejects, otherwise run the payout attempt. -/
def handle_email (st : BotState) (user : UserData) (text : String) (now : Int)
    (api : ApiResult) (saveOk : Bool) : StepResult :=
  let email := (strip_lower text)
  let user_id := toString user.id
  if is_valid_email email then
    if checkRetryThrottle st.user_claims user_id now then
      attemptPayout st user email user_id now api saveOk
    else
      ⟨st, EmailReply.throttleWait, ConvState.ended, 0, 0⟩
  else
    ⟨st, EmailReply.invalidFormat, ConvState.waitingForEmail, 0, 0⟩

theorem getClaim_setClaim_self (m : List (String × ClaimRecord)) (user_id : String)
    (r : ClaimRecord) : getClaim (setClaim m user_id r) user_id = some r := by
  induction m with
  | nil => simp [setClaim, getClaim]
  | cons p rest ih =>
    obtain ⟨k, v⟩ := p
    by_cases hk : k = user_id
    · simp [setClaim, getClaim, hk]
    · simp [setClaim, getClaim, hk, ih]

theorem saveMany_some (xs : List (String × UserData × Int)) :
    ∀ acc : List Line, saveMany (some acc) xs =
      some (acc ++ (xs.map (fun p => EmailStorage.mkEntry p.1 p.2.1 p.2.2)).map Line.entry) := by
  induction xs with
  | nil => intro acc; simp [saveMany]
  | cons p rest ih =>
    intro acc
    obtain ⟨email, user, now⟩ := p
    simp only [saveMany, EmailStorage.save_email, if_pos, Option.getD_some, List.map_cons]
    rw [ih]
    simp

theorem parseLines_entries (es : List Entry) :
    EmailStorage.parseLines (es.map Line.entry) = Except.ok es := by
  induction es with
  | nil => rfl
  | cons e rest ih => simp [EmailStorage.parseLines, ih, Except.map]

theorem get_all_emails_entries (es : List Entry) :
    EmailStorage.get_all_emails (some (es.map Line.entry)) = es := by
  simp [EmailStorage.get_all_emails, parseLines_entries]

/-- C6: after N successful appends to the history (N ≥ 0, in order), reading
it back returns exactly those N entries in append order; reading a
never-written history returns the empty sequence, and so does reading right
after `clear_emails`. -/
theorem history_append_readAll :
    (∀ xs : List (String × UserData × Int),
      EmailStorage.get_all_emails (saveMany none xs) =
        xs.map (fun p => EmailStorage.mkEntry p.1 p.2.1 p.2.2)) ∧
    EmailStorage.get_all_emails none = [] ∧
    (∀ file, EmailStorage.get_all_emails (EmailStorage.clear_emails file).1 = []) := by
  refine ⟨?_, rfl, fun file => rfl⟩
  intro xs
  cases xs with
  | nil => rfl
  | cons p rest =>
    obtain ⟨email, user, now⟩ := p
    rw [saveMany]
    have h1 : (EmailStorage.save_email true none email user now).1 =
        some ([EmailStorage.mkEntry email user now].map Line.entry) := rfl
    rw [h1, saveMany_some]
    have h2 : [EmailStorage.mkEntry email user now].map Line.entry ++
        (rest.map (fun p => EmailStorage.mkEntry p.1 p.2.1 p.2.2)).map Line.entry =
        (((email, user, now) :: rest).map
          (fun p => EmailStorage.mkEntry p.1 p.2.1 p.2.2)).map Line.entry := by
      simp
    rw [h2, get_all_emails_entries]

theorem parseLines_garbage : ∀ {lines : List Line}, Line.garbage ∈ lines →
    EmailStorage.parseLines lines = Except.error () := by
  intro lines h
  induction lines with
  | nil => cases h
  | cons l rest ih =>
    cases l with
    | blank =>
      rw [EmailStorage.parseLines]
      rcases List.mem_cons.mp h with h1 | h2
      · cases h1
      · exact ih h2
    | entry e =>
      rw [EmailStorage.parseLines]
      rcases List.mem_cons.mp h with h1 | h2
      · cases h1
      · rw [ih h2]; rfl
    | garbage => rfl

theorem parseLines_blank (pre post : List Line) :
    EmailStorage.parseLines (pre ++ Line.blank :: post) =
      EmailStorage.parseLines (pre ++ post) := by
  induction pre with
  | nil => simp [EmailStorage.parseLines]
  | cons l rest ih => cases l <;> simp [EmailStorage.parseLines, ih]

/-- C8: any non-blank line that JSON parsing rejects makes `get_all_emails`
return the empty list — even entries parsed before it are discarded — while
blank lines are silently skipped. -/
theorem garbage_line_hides_history :
    (∀ lines : List Line, Line.garbage ∈ lines →
      EmailStorage.get_all_emails (some lines) = []) ∧
    (∀ pre post : List Line,
      EmailStorage.get_all_emails (some (pre ++ Line.blank :: post)) =
        EmailStorage.get_all_emails (some (pre ++ post))) := by
  constructor
  · intro lines h
    simp [EmailStorage.get_all_emails, parseLines_garbage h]
  · intro pre post
    simp [EmailStorage.get_all_emails, parseLines_blank]

/-- Witness for C8: one well-formed record followed by one unparseable line
hides the whole history. -/
theorem garbage_line_hides_history_witness :
    EmailStorage.get_all_emails
      (some [Line.entry ⟨0, "a@b.co", 7, none, none, none⟩, Line.garbage]) = [] :=
  garbage_line_hides_history.1
    [Line.entry ⟨0, "a@b.co", 7, none, none, none⟩, Line.garbage] (by decide)

/-- C9: the transaction id shown in the success message is the response's
`payout_user_hash` unchanged when it has at most 12 characters, its first 12
characters followed by `"..."` when longer, and `"N/A"` when the field is
absent; the success reply carries exactly `short_tx_of hash`. -/
theorem short_tx_display :
    short_tx_of none = "N/A" ∧
    (∀ s : String, s.length ≤ 12 → short_tx_of (some s) = s) ∧
    (∀ s : String, 12 < s.length → short_tx_of (some s) = s.take 12 ++ "...") ∧
    (∀ (st : BotState) (user : UserData) (text : String) (now : Int)
       (msg hash : Option String) (saveOk : Bool),
      is_valid_email (strip_lower text) = true →
      checkRetryThrottle st.user_claims (toString user.id) now = true →
      (handle_email st user text now (ApiResult.response (some 200) msg hash) saveOk).reply =
        EmailReply.success AMOUNT (strip_lower text) (short_tx_of hash)) := by
  refine ⟨rfl, ?_, ?_, ?_⟩
  · intro s h
    simp only [short_tx_of, Option.getD_some]
    rw [if_neg (by omega)]
  · intro s h
    simp only [short_tx_of, Option.getD_some]
    rw [if_pos h]
  · intro st user text now msg hash saveOk hvalid hthrottle
    simp [handle_email, hvalid, hthrottle, attemptPayout]

/-- Witness for C9: an at-most-12-character hash is displayed unchanged. -/
theorem short_tx_display_witness : short_tx_of (some "abc123") = "abc123" :=
  short_tx_display.2.1 "abc123" (by decide)

/-- C2: with no `ClaimRecord`, `/start` proceeds to the email prompt; with a
record, it proceeds iff `now - last_claim ≥ 86400`, and otherwise ends the
conversation reporting the remaining `86400 - (now - last_claim)` seconds
rendered as whole hours and minutes. -/
theorem start_cooldown_eligibility (st : BotState) (user_id : String) (now : Int) :
    (getClaim st.user_claims user_id = none →
      start_command st user_id now = StartReply.promptEmail) ∧
    (∀ r : ClaimRecord, getClaim st.user_claims user_id = some r →
      ((start_command st user_id now = StartReply.promptEmail ↔
         86400 ≤ now - r.last_claim) ∧
       (now - r.last_claim < 86400 →
         start_command st user_id now =
           StartReply.cooldownActive ((86400 - (now - r.last_claim)) / 3600)
             ((86400 - (now - r.last_claim)) % 3600 / 60)))) := by
  constructor
  · intro h; simp [start_command, h]
  · intro r hr
    constructor
    · constructor
      · intro hp
        by_contra hlt
        push_neg at hlt
        have hpos : 0 < 86400 - (now - r.last_claim) := by omega
        simp [start_command, hr, hpos] at hp
      · intro hge
        have hneg : ¬ 0 < 86400 - (now - r.last_claim) := by omega
        simp [start_command, hr, hneg]
    · intro hlt
      have hpos : 0 < 86400 - (now - r.last_claim) := by omega
      simp [start_command, hr, hpos]

/-- Witness for C2: a user who claimed at epoch 0 and returns at epoch 3661
is told to wait 22 hours 58 minutes. -/
theorem start_cooldown_eligibility_witness :
    start_command ⟨[("7", ⟨0, "a@b.co"⟩)], none⟩ "7" 3661 =
      StartReply.cooldownActive 22 58 :=
  ((start_cooldown_eligibility ⟨[("7", ⟨0, "a@b.co"⟩)], none⟩ "7" 3661).2
    ⟨0, "a@b.co"⟩ rfl).2 (by decide)

/-- C10: `/status` leaves the state (claims map and history file) unchanged,
and it reports waiting exactly when `/start` would report the cooldown, with
the same hours-and-minutes figures, and ready/no-claims exactly when
`/start` would proceed to the prompt. -/
theorem status_readonly_consistent (st : BotState) (user_id : String) (now : Int) :
    (status_command st user_id now).1 = st ∧
    (∀ (e : String) (hrs mins : Int),
      (status_command st user_id now).2 = StatusReply.waitingCooldown e hrs mins →
      start_command st user_id now = StartReply.cooldownActive hrs mins) ∧
    ((status_command st user_id now).2 = StatusReply.readyToClaim ∨
      (status_command st user_id now).2 = StatusReply.noClaims →
      start_command st user_id now = StartReply.promptEmail) := by
  cases hc : getClaim st.user_claims user_id with
  | none =>
    refine ⟨by simp [status_command, hc], ?_, ?_⟩
    · intro e hrs mins h
      simp [status_command, hc] at h
    · intro h
      simp [start_command, hc]
  | some r =>
    by_cases hlt : now - r.last_claim < 86400
    · refine ⟨by simp [status_command, hc, hlt], ?_, ?_⟩
      · intro e hrs mins h
        simp only [status_command, hc, if_pos hlt] at h
        rw [StatusReply.waitingCooldown.injEq] at h
        obtain ⟨-, hh, hm⟩ := h
        subst hh
        subst hm
        have hpos : 0 < 86400 - (now - r.last_claim) := by omega
        simp [start_command, hc, hpos]
      · intro h
        simp [status_command, hc, hlt] at h
    · refine ⟨by simp [status_command, hc, hlt], ?_, ?_⟩
      · intro e hrs mins h
        simp [status_command, hc, hlt] at h
      · intro h
        have hneg : ¬ 0 < 86400 - (now - r.last_claim) := by omega
        simp [start_command, hc, hneg]

/-- Witness for C10: a concrete waiting user; `/status` returns the state
unchanged and `/start` agrees on 21 hours 57 minutes. -/
theorem status_readonly_consistent_witness :
    (status_command ⟨[("9", ⟨0, "e@x.co"⟩)], none⟩ "9" 7322).1 =
      ⟨[("9", ⟨0, "e@x.co"⟩)], none⟩ ∧
    start_command ⟨[("9", ⟨0, "e@x.co"⟩)], none⟩ "9" 7322 =
      StartReply.cooldownActive 21 57 :=
  ⟨(status_readonly_consistent ⟨[("9", ⟨0, "e@x.co"⟩)], none⟩ "9" 7322).1,
   (status_readonly_consistent ⟨[("9", ⟨0, "e@x.co"⟩)], none⟩ "9" 7322).2.1
     "e@x.co" 21 57 (by decide)⟩

/-- C1: for an attempt that reaches the payout call (valid email, throttle
passed), the `user_claims` record is created or overwritten — with the
current time, which is strictly later than any stored `last_claim` — exactly
when the response status is 200, and then exactly one history append and
exactly one claims-map write happen; a rejected response, a timeout or any
other error performs zero appends and zero claims-map writes and leaves the
whole state unchanged. -/
theorem claim_update_iff_success
    (st : BotState) (user : UserData) (text : String) (now : Int)
    (api : ApiResult) (saveOk : Bool)
    (hvalid : is_valid_email (strip_lower text) = true)
    (hthrottle : checkRetryThrottle st.user_claims (toString user.id) now = true) :
    ((∃ msg hash, api = ApiResult.response (some 200) msg hash) ↔
      (getClaim (handle_email st user text now api saveOk).state.user_claims
          (toString user.id) = some ⟨now, (strip_lower text)⟩ ∧
        (handle_email st user text now api saveOk).save_calls = 1 ∧
        (handle_email st user text now api saveOk).record_calls = 1)) ∧
    ((∀ msg hash, api ≠ ApiResult.response (some 200) msg hash) →
      (handle_email st user text now api saveOk).state = st ∧
      (handle_email st user text now api saveOk).save_calls = 0 ∧
      (handle_email st user text now api saveOk).record_calls = 0) ∧
    (∀ old : ClaimRecord, getClaim st.user_claims (toString user.id) = some old →
      old.last_claim < now) := by
  have hred : handle_email st user text now api saveOk =
      attemptPayout st user (strip_lower text) (toString user.id) now api saveOk := by
    simp [handle_email, hvalid, hthrottle]
  refine ⟨⟨?_, ?_⟩, ?_, ?_⟩
  · rintro ⟨msg, hash, rfl⟩
    rw [hred]
    simp [attemptPayout, getClaim_setClaim_self]
  · rintro ⟨hclaim, hsave, hrec⟩
    cases api with
    | response status msg hash =>
      by_cases hs : status = some 200
      · exact ⟨msg, hash, by rw [hs]⟩
      · exfalso
        rw [hred] at hsave
        simp [attemptPayout, hs] at hsave
    | timeout =>
      exfalso
      rw [hred] at hsave
      simp [attemptPayout] at hsave
    | networkError =>
      exfalso
      rw [hred] at hsave
      simp [attemptPayout] at hsave
  · intro hne
    cases api with
    | response status msg hash =>
      have hs : ¬ status = some 200 := fun h => hne msg hash (by rw [h])
      rw [hred]
      simp [attemptPayout, hs]
    | timeout =>
      rw [hred]
      simp [attemptPayout]
    | networkError =>
      rw [hred]
      simp [attemptPayout]
  · intro old hold
    have ht := hthrottle
    by_cases h : now - old.last_claim < 60
    · simp [checkRetryThrottle, hold, h] at ht
    · omega

/-- Witness for C1: a first-time user, a 200 response, and the claims map now
holds the fresh record. -/
theorem claim_update_iff_success_witness :
    getClaim (handle_email ⟨[], none⟩ ⟨7, none, none, none⟩ "a@b.co" 1000
        (ApiResult.response (some 200) none (some "ref")) true).state.user_claims
      (toString (7 : Int)) = some ⟨1000, "a@b.co"⟩ :=
  ((claim_update_iff_success ⟨[], none⟩ ⟨7, none, none, none⟩ "a@b.co" 1000
      (ApiResult.response (some 200) none (some "ref")) true (by decide) (by decide)).1.mp
    ⟨none, some "ref", rfl⟩).1

/-- C4: for an attempt that reaches the payout call, the outcome is
classified exhaustively — status 200 gives the success message carrying the
(possibly truncated) reference id, any other status gives the
transaction-failed message with the response's `message` field (defaulting
to "Unknown error"), a timeout gives the timeout message, and any other
error gives the service-unavailable message — and every branch ends the
conversation normally. -/
theorem payout_outcome_classification
    (st : BotState) (user : UserData) (text : String) (now : Int) (saveOk : Bool)
    (hvalid : is_valid_email (strip_lower text) = true)
    (hthrottle : checkRetryThrottle st.user_claims (toString user.id) now = true) :
    (∀ msg hash,
      (handle_email st user text now (ApiResult.response (some 200) msg hash) saveOk).reply =
        EmailReply.success AMOUNT (strip_lower text) (short_tx_of hash) ∧
      (handle_email st user text now (ApiResult.response (some 200) msg hash) saveOk).conv =
        ConvState.ended) ∧
    (∀ status msg hash, status ≠ some 200 →
      (handle_email st user text now (ApiResult.response status msg hash) saveOk).reply =
        EmailReply.txFailed (msg.getD "Unknown error") ∧
      (handle_email st user text now (ApiResult.response status msg hash) saveOk).conv =
        ConvState.ended ∧
      (handle_email st user text now (ApiResult.response status msg hash) saveOk).state = st) ∧
    ((handle_email st user text now ApiResult.timeout saveOk).reply = EmailReply.timeoutMsg ∧
      (handle_email st user text now ApiResult.timeout saveOk).conv = ConvState.ended ∧
      (handle_email st user text now ApiResult.timeout saveOk).state = st) ∧
    ((handle_email st user text now ApiResult.networkError saveOk).reply =
        EmailReply.serviceUnavailable ∧
      (handle_email st user text now ApiResult.networkError saveOk).conv = ConvState.ended ∧
      (handle_email st user text now ApiResult.networkError saveOk).state = st) := by
  refine ⟨?_, ?_, ?_, ?_⟩
  · intro msg hash
    simp [handle_email, hvalid, hthrottle, attemptPayout]
  · intro status msg hash hs
    simp [handle_email, hvalid, hthrottle, attemptPayout, hs]
  · simp [handle_email, hvalid, hthrottle, attemptPayout]
  · simp [handle_email, hvalid, hthrottle, attemptPayout]

/-- Witness for C4: a non-200 response with no `message` field yields the
transaction-failed reply with the default reason. -/
theorem payout_outcome_classification_witness :
    (handle_email ⟨[], none⟩ ⟨7, none, none, none⟩ "a@b.co" 1000
        (ApiResult.response (some 456) none none) true).reply =
      EmailReply.txFailed "Unknown error" :=
  ((payout_outcome_classification ⟨[], none⟩ ⟨7, none, none, none⟩ "a@b.co" 1000 true
      (by decide) (by decide)).2.1 (some 456) none none (by decide)).1

/-- Counterexample to C5 as stated: a rejected attempt at t = 100 leaves the
state unchanged, so a second attempt only 10 seconds later proceeds to the
payout call — even though the spec-level throttle, which counts every
recorded attempt independent of success, requires blocking it
(`spec_checkRetryThrottle [100] 110 = false`). -/
theorem throttle_spec_cex :
    (handle_email ⟨[], none⟩ ⟨7, none, none, none⟩ "a@b.co" 100
        (ApiResult.response (some 456) (some "rejected") none) true).state =
      ⟨[], none⟩ ∧
    (handle_email ⟨[], none⟩ ⟨7, none, none, none⟩ "a@b.co" 110
        (ApiResult.response (some 456) (some "rejected") none) true).reply =
      EmailReply.txFailed "rejected" ∧
    spec_checkRetryThrottle [100] 110 = false := by
  decide

/-- C5 (amended): the 60-second throttle blocks an attempt exactly when the
user has a `ClaimRecord` whose `last_claim` is less than 60 seconds old;
since only successful claims write that record, failed attempts impose no
spacing.  When the throttle rejects, the user is told to wait and the
conversation ends with no attempt counted: state unchanged, zero history
appends, zero claims-map writes. -/
theorem throttle_only_counts_success
    (st : BotState) (user : UserData) (text : String) (now : Int)
    (api : ApiResult) (saveOk : Bool)
    (hvalid : is_valid_email (strip_lower text) = true) :
    ((handle_email st user text now api saveOk).reply = EmailReply.throttleWait ↔
      checkRetryThrottle st.user_claims (toString user.id) now = false) ∧
    (checkRetryThrottle st.user_claims (toString user.id) now = false ↔
      ∃ r : ClaimRecord, getClaim st.user_claims (toString user.id) = some r ∧
        now - r.last_claim < 60) ∧
    ((handle_email st user text now api saveOk).reply = EmailReply.throttleWait →
      handle_email st user text now api saveOk =
        ⟨st, EmailReply.throttleWait, ConvState.ended, 0, 0⟩) := by
  have hnot : checkRetryThrottle st.user_claims (toString user.id) now = true →
      (handle_email st user text now api saveOk).reply ≠ EmailReply.throttleWait := by
    intro ht
    cases api with
    | response status msg hash =>
      by_cases hs : status = some 200 <;>
        simp [handle_email, hvalid, ht, attemptPayout, hs]
    | timeout => simp [handle_email, hvalid, ht, attemptPayout]
    | networkError => simp [handle_email, hvalid, ht, attemptPayout]
  refine ⟨?_, ?_, ?_⟩
  · cases ht : checkRetryThrottle st.user_claims (toString user.id) now
    · simp [handle_email, hvalid, ht]
    · constructor
      · intro h
        exact absurd h (hnot ht)
      · intro h
        simp at h
  · cases hg : getClaim st.user_claims (toString user.id) with
    | none => simp [checkRetryThrottle, hg]
    | some r =>
      by_cases h : now - r.last_claim < 60 <;> simp [checkRetryThrottle, hg, h]
  · intro h
    cases ht : checkRetryThrottle st.user_claims (toString user.id) now
    · simp [handle_email, hvalid, ht]
    · exact absurd h (hnot ht)

/-- Witness for C5 (amended): a user whose successful claim is 10 seconds
old is throttled. -/
theorem throttle_only_counts_success_witness :
    (handle_email ⟨[("7", ⟨100, "a@b.co"⟩)], none⟩ ⟨7, none, none, none⟩ "a@b.co" 110
        ApiResult.timeout true).reply = EmailReply.throttleWait :=
  (throttle_only_counts_success ⟨[("7", ⟨100, "a@b.co"⟩)], none⟩
    ⟨7, none, none, none⟩ "a@b.co" 110 ApiResult.timeout true (by decide)).1.mpr
    (by decide)

/-- C7: when the payout succeeded but the history append fails, the failure
is swallowed inside `save_email` (which still returns normally, via the
backup-logging path), the user still gets the success message, the
`user_claims` record is still written, and the previously written history
file is untouched. -/
theorem persistence_failure_isolated
    (st : BotState) (user : UserData) (text : String) (now : Int)
    (msg hash : Option String)
    (hvalid : is_valid_email (strip_lower text) = true)
    (hthrottle : checkRetryThrottle st.user_claims (toString user.id) now = true) :
    (handle_email st user text now (ApiResult.response (some 200) msg hash) false).reply =
      EmailReply.success AMOUNT (strip_lower text) (short_tx_of hash) ∧
    (handle_email st user text now (ApiResult.response (some 200) msg hash) false).conv =
      ConvState.ended ∧
    getClaim (handle_email st user text now (ApiResult.response (some 200) msg hash)
        false).state.user_claims (toString user.id) = some ⟨now, (strip_lower text)⟩ ∧
    (handle_email st user text now (ApiResult.response (some 200) msg hash)
        false).state.file = st.file ∧
    EmailStorage.save_email false st.file (strip_lower text) user now = (st.file, true) := by
  refine ⟨?_, ?_, ?_, ?_, rfl⟩ <;>
    simp [handle_email, hvalid, hthrottle, attemptPayout, EmailStorage.save_email,
      getClaim_setClaim_self]

/-- Witness for C7: with the file write failing, the success reply is still
produced. -/
theorem persistence_failure_isolated_witness :
    (handle_email ⟨[], none⟩ ⟨7, none, none, none⟩ "a@b.co" 1000
        (ApiResult.response (some 200) none (some "abc")) false).reply =
      EmailReply.success AMOUNT "a@b.co" (short_tx_of (some "abc")) :=
  (persistence_failure_isolated ⟨[], none⟩ ⟨7, none, none, none⟩ "a@b.co" 1000
    none (some "abc") (by decide) (by decide)).1

theorem splitLastDot_of_not_mem : ∀ {cs : List Char}, '.' ∉ cs → splitLastDot cs = none := by
  intro cs h
  induction cs with
  | nil => rfl
  | cons c rest ih =>
    rw [List.mem_cons, not_or] at h
    simp [splitLastDot, ih h.2, Ne.symm h.1]

theorem splitLastDot_isSome_of_mem : ∀ {cs : List Char}, '.' ∈ cs →
    (splitLastDot cs).isSome = true := by
  intro cs h
  induction cs with
  | nil => cases h
  | cons c rest ih =>
    rw [splitLastDot]
    cases hs : splitLastDot rest with
    | some p => simp
    | none =>
      rcases List.mem_cons.mp h with h1 | h2
      · simp [h1.symm]
      · exact absurd (ih h2) (by simp [hs])

theorem not_mem_of_splitLastDot_none {cs : List Char} (h : splitLastDot cs = none) :
    '.' ∉ cs := by
  intro hm
  have hsome := splitLastDot_isSome_of_mem hm
  rw [h] at hsome
  cases hsome

theorem splitLastDot_sound : ∀ {cs d t : List Char}, splitLastDot cs = some (d, t) →
    cs = d ++ '.' :: t ∧ '.' ∉ t := by
  intro cs
  induction cs with
  | nil => intro d t h; cases h
  | cons c rest ih =>
    intro d t h
    rw [splitLastDot] at h
    cases hs : splitLastDot rest with
    | some p =>
      obtain ⟨d0, t0⟩ := p
      rw [hs] at h
      simp only [Option.some.injEq, Prod.mk.injEq] at h
      obtain ⟨hd, ht⟩ := h
      obtain ⟨hcs, hnt⟩ := ih hs
      subst hd
      subst ht
      exact ⟨by rw [hcs]; rfl, hnt⟩
    | none =>
      rw [hs] at h
      by_cases hc : c = '.'
      · simp only [if_pos hc, Option.some.injEq, Prod.mk.injEq] at h
        obtain ⟨hd, ht⟩ := h
        subst hd
        subst ht
        subst hc
        exact ⟨rfl, not_mem_of_splitLastDot_none hs⟩
      · simp only [if_neg hc] at h
        cases h

theorem splitLastDot_complete : ∀ (d t : List Char), '.' ∉ t →
    splitLastDot (d ++ '.' :: t) = some (d, t) := by
  intro d
  induction d with
  | nil =>
    intro t ht
    rw [List.nil_append, splitLastDot, splitLastDot_of_not_mem ht]
    simp
  | cons c rest ih =>
    intro t ht
    rw [List.cons_append, splitLastDot, ih t ht]

theorem stripFinalNewline_of_getLast_ne {cs : List Char} (h : ¬ cs.getLast? = some '\n') :
    stripFinalNewline cs = cs := by
  rw [stripFinalNewline, if_neg h]

theorem stripFinalNewline_append_cons (A : List Char) (x : Char) (B : List Char)
    (hx : x ≠ '\n') :
    stripFinalNewline (A ++ x :: B) = A ++ x :: stripFinalNewline B := by
  rcases List.eq_nil_or_concat B with hB | ⟨B', c, hB⟩
  · subst hB
    simp [stripFinalNewline, List.getLast?_concat, hx]
  · rw [List.concat_eq_append] at hB
    subst hB
    have h1 : A ++ x :: (B' ++ [c]) = (A ++ (x :: B')) ++ [c] := by simp
    by_cases hc : c = '\n'
    · subst hc
      have hR : stripFinalNewline (B' ++ ['\n']) = B' := by
        rw [stripFinalNewline, if_pos (List.getLast?_concat _)]
        exact List.dropLast_concat
      have hLHS : stripFinalNewline (A ++ x :: (B' ++ ['\n'])) = A ++ (x :: B') := by
        rw [h1, stripFinalNewline, if_pos (List.getLast?_concat _)]
        exact List.dropLast_concat
      rw [hLHS, hR]
    · have hR : stripFinalNewline (B' ++ [c]) = B' ++ [c] :=
        stripFinalNewline_of_getLast_ne (by rw [List.getLast?_concat]; simp [hc])
      have hLHS : stripFinalNewline (A ++ x :: (B' ++ [c])) = A ++ x :: (B' ++ [c]) := by
        rw [h1]
        rw [stripFinalNewline_of_getLast_ne (by rw [List.getLast?_concat]; simp [hc])]
      rw [hLHS, hR]

theorem stripFinalNewline_cases (cs : List Char) :
    cs = stripFinalNewline cs ∨ cs = stripFinalNewline cs ++ ['\n'] := by
  rcases List.eq_nil_or_concat cs with hcs | ⟨cs', c, hcs⟩
  · subst hcs
    left
    rfl
  · rw [List.concat_eq_append] at hcs
    subst hcs
    by_cases hc : c = '\n'
    · subst hc
      right
      rw [stripFinalNewline]
      simp [List.getLast?_concat, List.dropLast_concat]
    · left
      rw [stripFinalNewline]
      simp [List.getLast?_concat, hc]

theorem is_valid_email_eq_of_decomp (s : String) (L r0 : List Char)
    (hs : s.toList = L ++ '@' :: r0) (hL : L ≠ [])
    (hall : ∀ a ∈ L, localChar a = true) :
    is_valid_email s =
      (match splitLastDot (stripFinalNewline r0) with
       | some (d, t) =>
         !d.isEmpty && d.all domainChar && t.all Char.isAlpha && decide (2 ≤ t.length)
       | none => false) := by
  have hAt : localChar '@' = false := by decide
  have hdrop : s.toList.dropWhile localChar = '@' :: r0 := by
    rw [hs, List.dropWhile_append_of_pos hall, List.dropWhile_cons, hAt]
    simp
  have htake : s.toList.takeWhile localChar = L := by
    rw [hs, List.takeWhile_append_of_pos hall, List.takeWhile_cons, hAt]
    simp
  have hne : L.isEmpty = false := by
    cases L with
    | nil => exact absurd rfl hL
    | cons a l => rfl
  rw [is_valid_email, hdrop, htake]
  simp [hne]

theorem shape_of_is_valid_email {s : String} (h : is_valid_email s = true) :
    emailShape (String.mk (stripFinalNewline s.toList)) := by
  rw [is_valid_email] at h
  cases hdrop : s.toList.dropWhile localChar with
  | nil =>
    rw [hdrop] at h
    simp at h
  | cons c r0 =>
    rw [hdrop] at h
    simp only [Bool.and_eq_true, beq_iff_eq, Bool.not_eq_true'] at h
    obtain ⟨⟨hc, hne⟩, hinner⟩ := h
    subst hc
    have hs : s.toList = s.toList.takeWhile localChar ++ '@' :: r0 := by
      rw [← hdrop]
      exact (List.takeWhile_append_dropWhile localChar s.toList).symm
    have hstrip : stripFinalNewline s.toList =
        s.toList.takeWhile localChar ++ '@' :: stripFinalNewline r0 := by
      conv_lhs => rw [hs]
      exact stripFinalNewline_append_cons _ _ _ (by decide)
    cases hsplit : splitLastDot (stripFinalNewline r0) with
    | none =>
      rw [hsplit] at hinner
      simp at hinner
    | some p =>
      obtain ⟨d, t⟩ := p
      rw [hsplit] at hinner
      simp only [Bool.and_eq_true, Bool.not_eq_true', decide_eq_true_eq] at hinner
      obtain ⟨⟨⟨hd, hdall⟩, htall⟩, htlen⟩ := hinner
      obtain ⟨hcs, -⟩ := splitLastDot_sound hsplit
      refine ⟨s.toList.takeWhile localChar, d, t, ?_, ?_, List.all_takeWhile, ?_,
        hdall, htall, htlen⟩
      · show stripFinalNewline s.toList = _
        rw [hstrip, hcs]
      · intro hnil
        rw [hnil] at hne
        cases hne
      · intro hnil
        rw [hnil] at hd
        cases hd

theorem is_valid_email_of_shape {s : String}
    (h : emailShape (String.mk (stripFinalNewline s.toList))) :
    is_valid_email s = true := by
  obtain ⟨L, D, T, heq, hL, hLall, hD, hDall, hTall, hTlen⟩ := h
  have heq' : stripFinalNewline s.toList = L ++ '@' :: (D ++ '.' :: T) := heq
  have hTne : T ≠ [] := by
    intro ht
    rw [ht] at hTlen
    simp at hTlen
  have hdot : '.' ∉ T := by
    intro hm
    have halpha := (List.all_eq_true.mp hTall) '.' hm
    exact absurd halpha (by decide)
  obtain ⟨T', c, hTc⟩ : ∃ T' c, T = T' ++ [c] := by
    rcases List.eq_nil_or_concat T with h1 | ⟨T', c, h1⟩
    · exact absurd h1 hTne
    · exact ⟨T', c, by rw [h1, List.concat_eq_append]⟩
  have hcalpha : Char.isAlpha c = true :=
    (List.all_eq_true.mp hTall) c (by rw [hTc]; simp)
  have hcn : c ≠ '\n' := by
    intro hc
    rw [hc] at hcalpha
    exact absurd hcalpha (by decide)
  have hall : ∀ a ∈ L, localChar a = true := List.all_eq_true.mp hLall
  have hform : D ++ '.' :: T = (D ++ '.' :: T') ++ [c] := by
    rw [hTc]
    simp
  have hlast : (D ++ '.' :: T).getLast? = some c := by
    rw [hform]
    exact List.getLast?_concat _
  rcases stripFinalNewline_cases s.toList with hcase | hcase
  · have hs : s.toList = L ++ '@' :: (D ++ '.' :: T) := by rw [hcase, heq']
    rw [is_valid_email_eq_of_decomp s L (D ++ '.' :: T) hs hL hall]
    have hnostrip : stripFinalNewline (D ++ '.' :: T) = D ++ '.' :: T :=
      stripFinalNewline_of_getLast_ne (by rw [hlast]; simp [hcn])
    rw [hnostrip, splitLastDot_complete D T hdot]
    simp [hD, hDall, hTall, hTlen]
  · have hs : s.toList = L ++ '@' :: ((D ++ '.' :: T) ++ ['\n']) := by
      rw [hcase, heq']
      simp
    rw [is_valid_email_eq_of_decomp s L ((D ++ '.' :: T) ++ ['\n']) hs hL hall]
    have hstrip2 : stripFinalNewline ((D ++ '.' :: T) ++ ['\n']) = D ++ '.' :: T := by
      rw [stripFinalNewline, if_pos (List.getLast?_concat _)]
      exact List.dropLast_concat
    rw [hstrip2, splitLastDot_complete D T hdot]
    simp [hD, hDall, hTall, hTlen]

/-- Counterexample to C3 as stated: Python's `$` also matches just before a
single trailing newline, so `is_valid_email "a@b.co\n"` is true although
`"a@b.co\n"` does not have the claimed `local-part@domain.tld` shape (its
final character is a newline, not an alphabetic label character). -/
theorem email_regex_newline_cex :
    is_valid_email "a@b.co\n" = true ∧ ¬ emailShape "a@b.co\n" := by
  constructor
  · decide
  · rintro ⟨L, D, T, heq, hL, hLall, hD, hDall, hTall, hTlen⟩
    have hTne : T ≠ [] := by
      intro ht
      rw [ht] at hTlen
      simp at hTlen
    obtain ⟨T', c, hTc⟩ : ∃ T' c, T = T' ++ [c] := by
      rcases List.eq_nil_or_concat T with h1 | ⟨T', c, h1⟩
      · exact absurd h1 hTne
      · exact ⟨T', c, by rw [h1, List.concat_eq_append]⟩
    have hform : L ++ '@' :: (D ++ '.' :: T) = (L ++ '@' :: (D ++ '.' :: T')) ++ [c] := by
      rw [hTc]
      simp
    have hlast : ("a@b.co\n".toList).getLast? = some c := by
      rw [heq, hform]
      exact List.getLast?_concat _
    have h2 : ("a@b.co\n".toList).getLast? = some '\n' := by decide
    rw [h2] at hlast
    have hc : c = '\n' := (Option.some.inj hlast).symm
    have hcalpha : Char.isAlpha c = true :=
      (List.all_eq_true.mp hTall) c (by rw [hTc]; simp)
    rw [hc] at hcalpha
    exact absurd hcalpha (by decide)

/-- C3 (amended): `is_valid_email s` is true iff `s`, after removing a
single trailing newline if present, has the shape `local-part@domain.tld`
with a nonempty `[A-Za-z0-9._%+-]` local part, a nonempty `[A-Za-z0-9.-]`
domain, and a final all-alphabetic label of length at least 2 (Python's `$`
also matches just before one trailing newline); in particular the four
example strings classify as the claim says. -/
theorem email_regex_shape_iff :
    (∀ s : String, is_valid_email s = true ↔
      emailShape (String.mk (stripFinalNewline s.toList))) ∧
    is_valid_email "a@b.co" = true ∧ is_valid_email "a@b" = false ∧
    is_valid_email "a.b@c-d.com" = true ∧ is_valid_email "not-an-email" = false :=
  ⟨fun _ => ⟨shape_of_is_valid_email, is_valid_email_of_shape⟩,
    by decide, by decide, by decide, by decide⟩

example : is_valid_email "a@b.co" = true := by decide
example : is_valid_email "a@b" = false := by decide
example : is_valid_email "a.b@c-d.com" = true := by decide
example : is_valid_email "not-an-email" = false := by decide
example : is_valid_email "a@b.co\n" = true := by decide
example : is_valid_email "a@b.co\n\n" = false := by decide
example : is_valid_email "a@b.c0m" = false := by decide
example : is_valid_email "a@b..co" = true := by decide
example : is_valid_email "a@-.co" = true := by decide
example : is_valid_email "a@b.cox\n" = true := by decide
example : is_valid_email "a@b.co\nx" = false := by decide
example : is_valid_email "@b.co" = false := by decide

end FaucetBot
